import Mathlib

/-!
Verification of the MTP framing layer of the samsung-mtp-tool repository.

Byte buffers are modelled as `List Nat`, each element one byte value.
Multi-byte writes store the low-order bits of their argument, so `u32le` and
`u16le` take the value modulo 2^32 / 2^16, exactly as JavaScript's
`DataView.setUint32` / `setUint16` and Kotlin's `ByteBuffer.putInt` /
`putShort` (little-endian mode) do.  Fallible reads are modelled with
`Option`; the `RangeError` thrown by an out-of-bounds `DataView.getUint32` is
modelled as `Except.error`.

`MtpUtils` embeds src/lib/mtp-utils.ts; `UsbMtpModule` embeds the native
Android transport session of
src/modules/usb-mtp-module/android/src/main/java/com/usbmtpmodule/UsbMtpModule.kt
together with the `sendCommand` success policy of src/hooks/use-usb-device.ts.
-/

namespace MtpUtils

/-- The four bytes written by `DataView.setUint32(off, n, true)`: the value
modulo 2^32, little-endian. -/
def u32le (n : Nat) : List Nat :=
  [n % 256, n / 256 % 256, n / 65536 % 256, n / 16777216 % 256]

/-- The two bytes written by `DataView.setUint16(off, n, true)`: the value
modulo 2^16, little-endian. -/
def u16le (n : Nat) : List Nat :=
  [n % 256, n / 256 % 256]

/-- Overwrite the bytes of `buf` at offsets `[off, off + bs.length)` with
`bs` (the writes made by the `DataView` setters are always in bounds in
`buildMtpCommandPacket`, so no bounds check is modelled here). -/
def writeBytes (buf : List Nat) (off : Nat) (bs : List Nat) : List Nat :=
  buf.take off ++ bs ++ buf.drop (off + bs.length)

def setUint32 (buf : List Nat) (off n : Nat) : List Nat := writeBytes buf off (u32le n)

def setUint16 (buf : List Nat) (off n : Nat) : List Nat := writeBytes buf off (u16le n)

/-- `params.forEach((param, index) => view.setUint32(headerLength + index * 4,
param, true))` of src/lib/mtp-utils.ts, as a left-to-right fold over the
parameter list with a running offset. -/
def writeParams (buf : List Nat) (off : Nat) (ps : List Nat) : List Nat :=
  match ps with
  | [] => buf
  | p :: rest => writeParams (setUint32 buf off p) (off + 4) rest

/-- src/lib/mtp-utils.ts `buildMtpCommandPacket`: allocate a zeroed buffer of
`12 + 4 * params.length` bytes, then fill length, container type (0x0001 =
COMMAND), opcode, transaction id and the parameters, all little-endian. -/
def buildMtpCommandPacket (opcode transactionId : Nat) (params : List Nat) : List Nat :=
  let headerLength := 12
  let paramsLength := params.length * 4
  let totalLength := headerLength + paramsLength
  let b0 := List.replicate totalLength 0
  let b1 := setUint32 b0 0 totalLength
  let b2 := setUint16 b1 4 1
  let b3 := setUint16 b2 6 opcode
  let b4 := setUint32 b3 8 transactionId
  writeParams b4 headerLength params

/-- Little-endian 32-bit value at `off` (reads of missing bytes yield 0; used
only at offsets the source has already bounds-checked). -/
def getUint32v (data : List Nat) (off : Nat) : Nat :=
  data.getD off 0 + 256 * data.getD (off + 1) 0 + 65536 * data.getD (off + 2) 0 +
    16777216 * data.getD (off + 3) 0

/-- Little-endian 16-bit value at `off`. -/
def getUint16v (data : List Nat) (off : Nat) : Nat :=
  data.getD off 0 + 256 * data.getD (off + 1) 0

/-- `DataView.getUint32(off, true)` with its bounds check: `none` models the
`RangeError` thrown when the four bytes are not inside the view. -/
def getUint32? (data : List Nat) (off : Nat) : Option Nat :=
  if off + 4 ≤ data.length then some (getUint32v data off) else none

/-- The parameter-reading loop of `parseMtpResponse`: `paramsCount` sequential
32-bit reads starting at `off`; the first out-of-bounds read aborts the whole
parse (in JavaScript the `RangeError` propagates out of the function). -/
def readParamsAux (data : List Nat) (off : Nat) : Nat → Option (List Nat)
  | 0 => some []
  | k + 1 =>
    match getUint32? data off with
    | none => none
    | some p =>
      match readParamsAux data (off + 4) k with
      | none => none
      | some ps => some (p :: ps)

/-- The record returned by `parseMtpResponse` on success. -/
structure MtpParsed where
  length : Nat
  type : Nat
  code : Nat
  transactionId : Nat
  params : List Nat
deriving DecidableEq, Repr

/-- src/lib/mtp-utils.ts `parseMtpResponse`.  `.ok none` is the `null` return
for a short buffer; `.error ()` is the uncaught `RangeError` of an
out-of-bounds parameter read.  The header reads are in bounds because
`data.length ≥ 12` has been checked, so they use the total reader.
`paramsCount` is `Math.floor((length - 12) / 4)`; for `length < 12` the
JavaScript loop bound is negative and the loop body never runs, which
truncated `Nat` subtraction reproduces exactly. -/
def parseMtpResponse (data : List Nat) : Except Unit (Option MtpParsed) :=
  if data.length < 12 then .ok none
  else
    let length := getUint32v data 0
    let type := getUint16v data 4
    let code := getUint16v data 6
    let transactionId := getUint32v data 8
    let paramsCount := (length - 12) / 4
    match readParamsAux data 12 paramsCount with
    | some ps => .ok (some ⟨length, type, code, transactionId, ps⟩)
    | none => .error ()

/-- The parameter area of a command packet: each parameter as four
little-endian bytes, in order. -/
def paramsBytes : List Nat → List Nat
  | [] => []
  | p :: rest => u32le p ++ paramsBytes rest

/-- Char-code test for the regular expression class `[0-9A-Fa-f]`. -/
def isHexDigit (c : Char) : Bool :=
  (48 ≤ c.toNat && c.toNat ≤ 57) || (65 ≤ c.toNat && c.toNat ≤ 70) ||
    (97 ≤ c.toNat && c.toNat ≤ 102)

/-- The value of one hex digit (0 for non-digits, which never occur on the
validated path). -/
def hexDigitVal (c : Char) : Nat :=
  if 48 ≤ c.toNat && c.toNat ≤ 57 then c.toNat - 48
  else if 65 ≤ c.toNat && c.toNat ≤ 70 then c.toNat - 55
  else if 97 ≤ c.toNat && c.toNat ≤ 102 then c.toNat - 87
  else 0

/-- `parseInt(cs, 16)` on an already validated digit string, as the usual
left-to-right accumulator. -/
def hexValAux (acc : Nat) : List Char → Nat
  | [] => acc
  | c :: rest => hexValAux (16 * acc + hexDigitVal c) rest

def hexVal (cs : List Char) : Nat := hexValAux 0 cs

/-- The ASCII whitespace characters stripped by JavaScript string trim (the
full JavaScript set also contains Unicode spaces, which never occur in the
inputs considered here). -/
def isJsWhitespace (c : Char) : Bool :=
  c.toNat = 32 || c.toNat = 9 || c.toNat = 10 || c.toNat = 13 ||
    c.toNat = 11 || c.toNat = 12

/-- JavaScript `s.trim()`. -/
def trimChars (cs : List Char) : List Char :=
  ((cs.dropWhile isJsWhitespace).reverse.dropWhile isJsWhitespace).reverse

/-- JavaScript `hex.replace(/^0x/i, '')`: remove a single `0x`/`0X` at the
very start of the raw string, nothing else. -/
def strip0x : List Char → List Char
  | '0' :: c :: rest => if c = 'x' || c = 'X' then rest else '0' :: c :: rest
  | cs => cs

/-- src/lib/mtp-utils.ts `parseHexOpcode`.  Note the order of operations in
the source: the prefix is removed from the raw string first, and only then is
whitespace trimmed.  The final range check mirrors the source's
`value > 0xFFFF` test (the `isNaN`/negative checks can never fire on a
validated hex string and are omitted). -/
def parseHexOpcode (cs : List Char) : Option Nat :=
  let cleaned := trimChars (strip0x cs)
  if 1 ≤ cleaned.length && cleaned.length ≤ 4 && cleaned.all isHexDigit then
    let value := hexVal cleaned
    if 65535 < value then none else some value
  else none

/-- The sixteen digit characters produced by
`toString(16).toUpperCase()`. -/
def hexDigits : List Char :=
  ['0', '1', '2', '3', '4', '5', '6', '7', '8', '9', 'A', 'B', 'C', 'D', 'E', 'F']

def hexDigitChar (n : Nat) : Char := hexDigits.getD n '0'

/-- `code.toString(16).toUpperCase()`: most significant digit first, one
digit for values below 16.  Structural recursion on a fuel bound (any fuel
above `n` gives the same digits, see `natToHexUpperAux_val` and friends). -/
def natToHexUpperAux (fuel n : Nat) : List Char :=
  match fuel with
  | 0 => []
  | fuel + 1 =>
    if n < 16 then [hexDigitChar n]
    else natToHexUpperAux fuel (n / 16) ++ [hexDigitChar (n % 16)]

def natToHexUpper (n : Nat) : List Char := natToHexUpperAux (n + 1) n

/-- JavaScript `padStart(len, c)`. -/
def padStart (cs : List Char) (len : Nat) (c : Char) : List Char :=
  List.replicate (len - cs.length) c ++ cs

/-- src/lib/mtp-utils.ts `formatOpcode`. -/
def formatOpcode (code : Nat) : List Char :=
  '0' :: 'x' :: padStart (natToHexUpper code) 4 '0'

/-- The advisory category of a curated opcode preset. -/
inductive OpcodeCategory
  | dangerous
  | safe
  | readOnly
  | unknown
deriving DecidableEq, Repr

/-- One entry of `PRESET_OPCODES` (the UI description strings of the source
play no role in any behaviour and are not modelled). -/
structure OpcodePreset where
  code : Nat
  category : OpcodeCategory
deriving DecidableEq, Repr

/-- src/lib/mtp-utils.ts `PRESET_OPCODES`: the six curated Samsung vendor
opcodes. -/
def PRESET_OPCODES : List OpcodePreset :=
  [⟨0xFE01, .dangerous⟩, ⟨0xFE03, .safe⟩, ⟨0xFE05, .safe⟩,
    ⟨0xFE07, .readOnly⟩, ⟨0xFE09, .readOnly⟩, ⟨0xFE0B, .dangerous⟩]

/-- src/lib/mtp-utils.ts `getOpcodeCategory`: preset lookup with `unknown`
as the default for every opcode outside the curated list. -/
def getOpcodeCategory (code : Nat) : OpcodeCategory :=
  match PRESET_OPCODES.find? (fun p => p.code == code) with
  | some p => p.category
  | none => .unknown

end MtpUtils

namespace UsbMtpModule

/-- The observable session state of the native module: whether
`currentConnection`/`bulkOutEndpoint` are bound, and the `transactionId`
counter (a 32-bit machine integer, kept as a natural number reduced modulo
2^32 on increment). -/
structure ModuleState where
  connected : Bool
  transactionId : Nat
deriving DecidableEq, Repr

/-- The transport behaviour during one `sendMtpCommand` call: the result of
the OUT `bulkTransfer` (negative = failure), and the bytes delivered by the
IN `bulkTransfer` (`none` models both a missing IN endpoint and a read that
returned no bytes — in all those cases no response is observed). -/
structure UsbTransferOracle where
  writeResult : Int
  readBytes : Option (List Nat)
deriving DecidableEq, Repr

/-- The map resolved by `sendMtpCommand` on a completed exchange. -/
structure MtpCommandResult where
  bytesSent : Int
  opcode : Nat
  transactionId : Nat
  responseCode : Int
  success : Bool
deriving DecidableEq, Repr

/-- The three ways one `sendMtpCommand` call can end: the NOT_CONNECTED
rejection, the TRANSFER_FAILED rejection, or a resolved result map. -/
inductive SendOutcome
  | notConnected
  | transferFailed (code : Int)
  | resolved (result : MtpCommandResult)
deriving DecidableEq, Repr

/-- Outcome, post-state, and the packet handed to the OUT `bulkTransfer`
(if one was). -/
structure SendResult where
  outcome : SendOutcome
  state : ModuleState
  sentPacket : Option (List Nat)
deriving DecidableEq, Repr

/-- Field initializers of the module: no connection, `transactionId = 1`. -/
def initialState : ModuleState := ⟨false, 1⟩

/-- `openConnection` (success path, lines 300-307): binds the transport and
resets the counter to 1.  On any failure path the connection stays unbound
(the method starts by calling `closeConnection()`) and the counter is not
touched. -/
def openConnection (ok : Bool) (s : ModuleState) : ModuleState :=
  if ok then ⟨true, 1⟩ else ⟨false, s.transactionId⟩

/-- `closeConnection`: releases the transport; the counter is not reset. -/
def closeConnection (s : ModuleState) : ModuleState := ⟨false, s.transactionId⟩

/-- The Kotlin `buildMtpCommandPacket`: sequential little-endian
`ByteBuffer` puts, so the packet is the concatenation of the fields.
`opcode.toShort()` keeps the low 16 bits and `putInt` the low 32, which the
byte serializers already do. -/
def buildMtpCommandPacket (opcode transactionId : Nat) (params : List Nat) : List Nat :=
  MtpUtils.u32le (12 + params.length * 4) ++ MtpUtils.u16le 1 ++
    MtpUtils.u16le opcode ++ MtpUtils.u32le transactionId ++ MtpUtils.paramsBytes params

/-- `sendMtpCommand` (lines 348-432).  The counter is post-incremented when
the packet is built, before the OUT transfer; `responseCode` stays `-1`
unless at least 12 response bytes arrive, in which case it is the
little-endian 16-bit value at offset 6; `success` is `bytesSent > 0`. -/
def sendMtpCommand (s : ModuleState) (opcode : Nat) (params : List Nat)
    (o : UsbTransferOracle) : SendResult :=
  if s.connected then
    let packet := buildMtpCommandPacket opcode s.transactionId params
    let s2 : ModuleState := ⟨true, (s.transactionId + 1) % 4294967296⟩
    if o.writeResult < 0 then
      ⟨.transferFailed o.writeResult, s2, some packet⟩
    else
      let responseCode : Int :=
        match o.readBytes with
        | some bs => if 12 ≤ bs.length then Int.ofNat (MtpUtils.getUint16v bs 6) else -1
        | none => -1
      ⟨.resolved ⟨o.writeResult, opcode, s.transactionId, responseCode,
        decide (0 < o.writeResult)⟩, s2, some packet⟩
  else ⟨.notConnected, s, none⟩

/-- The success predicate of `sendCommand` in src/hooks/use-usb-device.ts
line 281: `result.success && (result.responseCode === -1 ||
result.responseCode === 0x2001)`. -/
def hookIsSuccess (r : MtpCommandResult) : Bool :=
  r.success && (r.responseCode == -1 || r.responseCode == 8193)

/-- The boolean returned by the hook's `sendCommand` for one exchange on a
bound transport: a rejected promise is caught and yields `false`. -/
def endToEndSuccess (s : ModuleState) (opcode : Nat) (params : List Nat)
    (o : UsbTransferOracle) : Bool :=
  match (sendMtpCommand s opcode params o).outcome with
  | .resolved r => hookIsSuccess r
  | _ => false

/-- The response code the exchange observed, if any: a parseable (≥ 12 byte)
response container delivers its code field, everything else delivers
nothing. -/
def observedResponseCode (o : UsbTransferOracle) : Option Nat :=
  match o.readBytes with
  | some bs => if 12 ≤ bs.length then some (MtpUtils.getUint16v bs 6) else none
  | none => none

/-- Run a sequence of `sendMtpCommand` calls, collecting the transaction ID
consumed by each call that got past the connection check. -/
def runSends : ModuleState → List (Nat × List Nat × UsbTransferOracle) →
    List Nat × ModuleState
  | s, [] => ([], s)
  | s, c :: rest =>
    let r := sendMtpCommand s c.1 c.2.1 c.2.2
    let t := runSends r.state rest
    ((if s.connected then [s.transactionId] else []) ++ t.1, t.2)

end UsbMtpModule

/-- The acceptance rule exactly as claim C4 states it: strip leading and
trailing whitespace first, then accept an optional `0x`/`0X` prefix followed
by 1 to 4 hex digits. -/
def claimedParseHexOpcode (cs : List Char) : Option Nat :=
  let body := MtpUtils.strip0x (MtpUtils.trimChars cs)
  if 1 ≤ body.length && body.length ≤ 4 && body.all MtpUtils.isHexDigit then
    some (MtpUtils.hexVal body)
  else none

/-- The amended acceptance rule: a single `0x`/`0X` is removed from the very
start of the raw string (before any whitespace stripping), and the remainder
must trim to 1 to 4 hex digits. -/
def amendedParseHexOpcode (cs : List Char) : Option Nat :=
  let body := MtpUtils.trimChars (MtpUtils.strip0x cs)
  if body.length = 0 || 4 < body.length || !(body.all MtpUtils.isHexDigit) then none
  else some (MtpUtils.hexVal body)

namespace MtpUtils

theorem u32le_length (n : Nat) : (u32le n).length = 4 := by
  simp [u32le]

theorem u16le_length (n : Nat) : (u16le n).length = 2 := by
  simp [u16le]

theorem paramsBytes_length (ps : List Nat) : (paramsBytes ps).length = 4 * ps.length := by
  induction ps with
  | nil => simp [paramsBytes]
  | cons p rest ih => simp [paramsBytes, ih, u32le_length]; omega

theorem getD_append_add (a b : List Nat) (i d : Nat) :
    (a ++ b).getD (a.length + i) d = b.getD i d := by
  simp [List.getD_eq_getElem?_getD, List.getElem?_append_right
    (by omega : a.length ≤ a.length + i)]

theorem getUint32v_shift (a b : List Nat) (i : Nat) :
    getUint32v (a ++ b) (a.length + i) = getUint32v b i := by
  unfold getUint32v
  rw [show a.length + i + 1 = a.length + (i + 1) from by omega,
    show a.length + i + 2 = a.length + (i + 2) from by omega,
    show a.length + i + 3 = a.length + (i + 3) from by omega,
    getD_append_add, getD_append_add, getD_append_add, getD_append_add]

theorem getUint16v_shift (a b : List Nat) (i : Nat) :
    getUint16v (a ++ b) (a.length + i) = getUint16v b i := by
  unfold getUint16v
  rw [show a.length + i + 1 = a.length + (i + 1) from by omega,
    getD_append_add, getD_append_add]

theorem getUint32v_u32le (n : Nat) (rest : List Nat) (h : n < 4294967296) :
    getUint32v (u32le n ++ rest) 0 = n := by
  show n % 256 + 256 * (n / 256 % 256) + 65536 * (n / 65536 % 256) +
    16777216 * (n / 16777216 % 256) = n
  omega

theorem getUint16v_u16le (n : Nat) (rest : List Nat) (h : n < 65536) :
    getUint16v (u16le n ++ rest) 0 = n := by
  show n % 256 + 256 * (n / 256 % 256) = n
  omega

/-- A write that exactly covers the `mid` region of `pre ++ (mid ++ post)`
replaces `mid`. -/
theorem writeBytes_concat (pre mid post bs : List Nat) (h : bs.length = mid.length) :
    writeBytes (pre ++ (mid ++ post)) pre.length bs = pre ++ (bs ++ post) := by
  unfold writeBytes
  rw [List.take_left, h, List.drop_append mid.length, List.drop_left, List.append_assoc]

theorem setUint32_at (pre post : List Nat) (n off : Nat) (h : off = pre.length) :
    setUint32 (pre ++ (List.replicate 4 0 ++ post)) off n = pre ++ (u32le n ++ post) := by
  subst h
  exact writeBytes_concat pre (List.replicate 4 0) post (u32le n) (by simp [u32le])

theorem setUint16_at (pre post : List Nat) (n off : Nat) (h : off = pre.length) :
    setUint16 (pre ++ (List.replicate 2 0 ++ post)) off n = pre ++ (u16le n ++ post) := by
  subst h
  exact writeBytes_concat pre (List.replicate 2 0) post (u16le n) (by simp [u16le])

/-- The parameter loop fills the zeroed tail of the buffer with the
little-endian parameter bytes. -/
theorem writeParams_fill : ∀ (ps pre : List Nat),
    writeParams (pre ++ List.replicate (4 * ps.length) 0) pre.length ps =
      pre ++ paramsBytes ps := by
  intro ps
  induction ps with
  | nil =>
    intro pre
    simp [writeParams, paramsBytes]
  | cons p rest ih =>
    intro pre
    have hrep : List.replicate (4 * (p :: rest).length) (0 : Nat) =
        List.replicate 4 0 ++ List.replicate (4 * rest.length) 0 := by
      rw [← List.replicate_add]
      congr 1
      simp
      omega
    rw [hrep]
    show writeParams
      (setUint32 (pre ++ (List.replicate 4 0 ++ List.replicate (4 * rest.length) 0))
        pre.length p) (pre.length + 4) rest = pre ++ paramsBytes (p :: rest)
    rw [setUint32_at pre _ p pre.length rfl, ← List.append_assoc]
    have hlen : pre.length + 4 = (pre ++ u32le p).length := by
      simp [u32le_length]
    rw [hlen, ih (pre ++ u32le p), List.append_assoc]
    rfl

/-- Normal form of the JavaScript `buildMtpCommandPacket`: the packet is the
concatenation of the four little-endian header fields and the parameter
bytes. -/
theorem buildMtpCommandPacket_eq (opcode transactionId : Nat) (params : List Nat) :
    buildMtpCommandPacket opcode transactionId params =
      u32le (12 + 4 * params.length) ++ u16le 1 ++ u16le opcode ++
        u32le transactionId ++ paramsBytes params := by
  have hL : params.length * 4 = 4 * params.length := by omega
  show writeParams
      (setUint32 (setUint16 (setUint16 (setUint32
        (List.replicate (12 + params.length * 4) 0) 0 (12 + params.length * 4))
        4 1) 6 opcode) 8 transactionId) 12 params = _
  rw [hL]
  have e0 : List.replicate (12 + 4 * params.length) (0 : Nat) =
      [] ++ (List.replicate 4 0 ++ List.replicate (8 + 4 * params.length) 0) := by
    rw [List.nil_append, ← List.replicate_add]
    congr 1
    omega
  rw [e0, setUint32_at [] _ _ 0 rfl, List.nil_append]
  have e1 : List.replicate (8 + 4 * params.length) (0 : Nat) =
      List.replicate 2 0 ++ List.replicate (6 + 4 * params.length) 0 := by
    rw [← List.replicate_add]
    congr 1
    omega
  rw [e1, setUint16_at (u32le (12 + 4 * params.length)) _ 1 4 (by rw [u32le_length])]
  have e2 : List.replicate (6 + 4 * params.length) (0 : Nat) =
      List.replicate 2 0 ++ List.replicate (4 + 4 * params.length) 0 := by
    rw [← List.replicate_add]
    congr 1
    omega
  rw [e2, ← List.append_assoc,
    setUint16_at (u32le (12 + 4 * params.length) ++ u16le 1) _ opcode 6
      (by rw [List.length_append, u32le_length, u16le_length])]
  have e3 : List.replicate (4 + 4 * params.length) (0 : Nat) =
      List.replicate 4 0 ++ List.replicate (4 * params.length) 0 := by
    rw [← List.replicate_add]
  rw [e3, ← List.append_assoc,
    setUint32_at (u32le (12 + 4 * params.length) ++ u16le 1 ++ u16le opcode) _ transactionId 8
      (by rw [List.length_append, List.length_append, u32le_length, u16le_length, u16le_length])]
  rw [← List.append_assoc]
  have hfill := writeParams_fill params
    ((u32le (12 + 4 * params.length) ++ u16le 1 ++ u16le opcode) ++ u32le transactionId)
  rw [show ((u32le (12 + 4 * params.length) ++ u16le 1 ++ u16le opcode) ++
      u32le transactionId).length = 12 from by
    simp [u32le_length, u16le_length]] at hfill
  rw [hfill]

/-- When all `paramsCount` reads are in bounds, the parameter loop returns
exactly the 32-bit values at offsets `off + 4*i`. -/
theorem readParamsAux_some (data : List Nat) :
    ∀ (k off : Nat), off + 4 * k ≤ data.length →
      readParamsAux data off k =
        some ((List.range k).map fun i => getUint32v data (off + 4 * i)) := by
  intro k
  induction k with
  | zero =>
    intro off _
    simp [readParamsAux]
  | succ k ih =>
    intro off h
    have h4 : off + 4 ≤ data.length := by omega
    have hrec := ih (off + 4) (by omega)
    simp only [readParamsAux, getUint32?, if_pos h4, hrec]
    rw [List.range_succ_eq_map, List.map_cons, List.map_map]
    rw [show off + 4 * 0 = off from by omega]
    have htail : List.map ((fun i => getUint32v data (off + 4 * i)) ∘ Nat.succ) (List.range k) =
        List.map (fun i => getUint32v data (off + 4 + 4 * i)) (List.range k) :=
      List.map_congr_left (fun a _ => by
        simp only [Function.comp]
        congr 1
        omega)
    rw [htail]

/-- When the container claims at least one parameter that the buffer does not
hold, the parameter loop hits an out-of-bounds read and aborts. -/
theorem readParamsAux_none (data : List Nat) :
    ∀ (k off : Nat), 0 < k → data.length < off + 4 * k →
      readParamsAux data off k = none := by
  intro k
  induction k with
  | zero =>
    intro off h
    omega
  | succ k ih =>
    intro off _ hlen
    by_cases h4 : off + 4 ≤ data.length
    · have hk : 0 < k := by omega
      have hrec := ih (off + 4) hk (by omega)
      simp [readParamsAux, getUint32?, if_pos h4, hrec]
    · simp [readParamsAux, getUint32?, if_neg h4]

/-- Reading back `ps.length` parameters from the parameter area recovers the
parameters. -/
theorem readParamsAux_paramsBytes :
    ∀ (ps pre : List Nat), (∀ p ∈ ps, p < 4294967296) →
      readParamsAux (pre ++ paramsBytes ps) pre.length ps.length = some ps := by
  intro ps
  induction ps with
  | nil =>
    intro pre _
    simp [readParamsAux, paramsBytes]
  | cons p rest ih =>
    intro pre hp
    have hplt : p < 4294967296 := hp p (by simp)
    show readParamsAux (pre ++ (u32le p ++ paramsBytes rest)) pre.length
      (rest.length + 1) = some (p :: rest)
    have hlen : pre.length + 4 ≤ (pre ++ (u32le p ++ paramsBytes rest)).length := by
      simp [List.length_append, u32le_length, paramsBytes_length]
    have hval : getUint32v (pre ++ (u32le p ++ paramsBytes rest)) pre.length = p := by
      have h := getUint32v_shift pre (u32le p ++ paramsBytes rest) 0
      rw [Nat.add_zero] at h
      rw [h]
      exact getUint32v_u32le p _ hplt
    have hget : getUint32? (pre ++ (u32le p ++ paramsBytes rest)) pre.length = some p := by
      simp only [getUint32?]
      rw [if_pos hlen, hval]
    have hrec : readParamsAux (pre ++ (u32le p ++ paramsBytes rest)) (pre.length + 4)
        rest.length = some rest := by
      have h1 : pre ++ (u32le p ++ paramsBytes rest) = (pre ++ u32le p) ++ paramsBytes rest := by
        rw [List.append_assoc]
      have h2 : pre.length + 4 = (pre ++ u32le p).length := by
        simp [u32le_length]
      rw [h1, h2]
      exact ih (pre ++ u32le p) (fun q hq => hp q (by simp [hq]))
    simp [readParamsAux, hget, hrec]

/-- Parsing a freshly built command packet with the response-shaped reader
recovers every field bit for bit. -/
theorem parse_of_build (opcode transactionId : Nat) (params : List Nat)
    (hop : opcode < 65536) (htx : transactionId < 4294967296)
    (hps : ∀ p ∈ params, p < 4294967296) (hk : params.length ≤ 5) :
    parseMtpResponse (u32le (12 + 4 * params.length) ++ u16le 1 ++ u16le opcode ++
        u32le transactionId ++ paramsBytes params) =
      .ok (some ⟨12 + 4 * params.length, 1, opcode, transactionId, params⟩) := by
  rw [show u32le (12 + 4 * params.length) ++ u16le 1 ++ u16le opcode ++
      u32le transactionId ++ paramsBytes params =
      u32le (12 + 4 * params.length) ++ (u16le 1 ++ (u16le opcode ++
        (u32le transactionId ++ paramsBytes params))) from by
    simp [List.append_assoc]]
  have hlen : (u32le (12 + 4 * params.length) ++ (u16le 1 ++ (u16le opcode ++
      (u32le transactionId ++ paramsBytes params)))).length = 12 + 4 * params.length := by
    simp [List.length_append, u32le_length, u16le_length, paramsBytes_length]
    omega
  have h0 : getUint32v (u32le (12 + 4 * params.length) ++ (u16le 1 ++ (u16le opcode ++
      (u32le transactionId ++ paramsBytes params)))) 0 = 12 + 4 * params.length :=
    getUint32v_u32le _ _ (by omega)
  have h4 : getUint16v (u32le (12 + 4 * params.length) ++ (u16le 1 ++ (u16le opcode ++
      (u32le transactionId ++ paramsBytes params)))) 4 = 1 := by
    have hs := getUint16v_shift (u32le (12 + 4 * params.length))
      (u16le 1 ++ (u16le opcode ++ (u32le transactionId ++ paramsBytes params))) 0
    rw [u32le_length, Nat.add_zero] at hs
    rw [hs]
    exact getUint16v_u16le 1 _ (by omega)
  have h6 : getUint16v (u32le (12 + 4 * params.length) ++ (u16le 1 ++ (u16le opcode ++
      (u32le transactionId ++ paramsBytes params)))) 6 = opcode := by
    have hs1 := getUint16v_shift (u32le (12 + 4 * params.length))
      (u16le 1 ++ (u16le opcode ++ (u32le transactionId ++ paramsBytes params))) 2
    rw [u32le_length] at hs1
    have hs2 := getUint16v_shift (u16le 1)
      (u16le opcode ++ (u32le transactionId ++ paramsBytes params)) 0
    rw [u16le_length, Nat.add_zero] at hs2
    rw [show (6 : Nat) = 4 + 2 from rfl, hs1, hs2]
    exact getUint16v_u16le opcode _ hop
  have h8 : getUint32v (u32le (12 + 4 * params.length) ++ (u16le 1 ++ (u16le opcode ++
      (u32le transactionId ++ paramsBytes params)))) 8 = transactionId := by
    have hs1 := getUint32v_shift (u32le (12 + 4 * params.length))
      (u16le 1 ++ (u16le opcode ++ (u32le transactionId ++ paramsBytes params))) 4
    rw [u32le_length] at hs1
    have hs2 := getUint32v_shift (u16le 1)
      (u16le opcode ++ (u32le transactionId ++ paramsBytes params)) 2
    rw [u16le_length] at hs2
    have hs3 := getUint32v_shift (u16le opcode)
      (u32le transactionId ++ paramsBytes params) 0
    rw [u16le_length, Nat.add_zero] at hs3
    rw [show (8 : Nat) = 4 + 4 from rfl, hs1, show (4 : Nat) = 2 + 2 from rfl, hs2, hs3]
    exact getUint32v_u32le transactionId _ htx
  have hrd := readParamsAux_paramsBytes params
    (u32le (12 + 4 * params.length) ++ u16le 1 ++ u16le opcode ++ u32le transactionId) hps
  rw [show (u32le (12 + 4 * params.length) ++ u16le 1 ++ u16le opcode ++
      u32le transactionId).length = 12 from by
    simp [List.length_append, u32le_length, u16le_length]] at hrd
  rw [show u32le (12 + 4 * params.length) ++ u16le 1 ++ u16le opcode ++
      u32le transactionId ++ paramsBytes params =
      u32le (12 + 4 * params.length) ++ (u16le 1 ++ (u16le opcode ++
        (u32le transactionId ++ paramsBytes params))) from by
    simp [List.append_assoc]] at hrd
  simp only [parseMtpResponse]
  rw [if_neg (by omega)]
  rw [h0, show (12 + 4 * params.length - 12) / 4 = params.length from by omega, hrd]
  rw [h4, h6, h8]

theorem hexDigitVal_le (c : Char) : hexDigitVal c ≤ 15 := by
  unfold hexDigitVal
  split
  · rename_i h
    simp only [Bool.and_eq_true, decide_eq_true_eq] at h
    omega
  · split
    · rename_i h
      simp only [Bool.and_eq_true, decide_eq_true_eq] at h
      omega
    · split
      · rename_i h
        simp only [Bool.and_eq_true, decide_eq_true_eq] at h
        omega
      · omega

theorem hexValAux_lt (cs : List Char) : ∀ acc, hexValAux acc cs < (acc + 1) * 16 ^ cs.length := by
  induction cs with
  | nil =>
    intro acc
    simp [hexValAux]
  | cons c rest ih =>
    intro acc
    have h1 := ih (16 * acc + hexDigitVal c)
    have h2 := hexDigitVal_le c
    have h3 : (16 * acc + hexDigitVal c + 1) * 16 ^ rest.length ≤
        ((acc + 1) * 16) * 16 ^ rest.length :=
      Nat.mul_le_mul_right _ (by omega)
    have h4 : ((acc + 1) * 16) * 16 ^ rest.length = (acc + 1) * 16 ^ (rest.length + 1) := by
      ring
    show hexValAux (16 * acc + hexDigitVal c) rest < (acc + 1) * 16 ^ (rest.length + 1)
    calc hexValAux (16 * acc + hexDigitVal c) rest
        < (16 * acc + hexDigitVal c + 1) * 16 ^ rest.length := h1
      _ ≤ ((acc + 1) * 16) * 16 ^ rest.length := h3
      _ = (acc + 1) * 16 ^ (rest.length + 1) := h4

theorem hexVal_le (cs : List Char) (h : cs.length ≤ 4) : hexVal cs ≤ 65535 := by
  have h1 := hexValAux_lt cs 0
  have h2 : (16 : Nat) ^ cs.length ≤ 16 ^ 4 := Nat.pow_le_pow_right (by omega) h
  have h3 : (16 : Nat) ^ 4 = 65536 := by norm_num
  have h4 : hexValAux 0 cs < 16 ^ cs.length := by simpa using h1
  simp only [hexVal]
  omega

theorem hexDigitChar_spec : ∀ m, m < 16 →
    hexDigitVal (hexDigitChar m) = m ∧ isHexDigit (hexDigitChar m) = true ∧
      isJsWhitespace (hexDigitChar m) = false := by
  decide

theorem natToHexUpperAux_good : ∀ (fuel n : Nat), n < fuel →
    (natToHexUpperAux fuel n).all (fun c => isHexDigit c && !isJsWhitespace c) = true := by
  intro fuel
  induction fuel with
  | zero =>
    intro n h
    omega
  | succ fuel ih =>
    intro n h
    simp only [natToHexUpperAux]
    by_cases h16 : n < 16
    · simp [if_pos h16, (hexDigitChar_spec n h16).2.1, (hexDigitChar_spec n h16).2.2]
    · have hdiv : n / 16 < fuel := by
        have := Nat.div_lt_self (by omega : 0 < n) (by omega : 1 < 16)
        omega
      have hmod : n % 16 < 16 := Nat.mod_lt _ (by omega)
      simp [if_neg h16, List.all_append, ih (n / 16) hdiv,
        (hexDigitChar_spec _ hmod).2.1, (hexDigitChar_spec _ hmod).2.2]

theorem natToHexUpperAux_pos : ∀ (fuel n : Nat), n < fuel →
    1 ≤ (natToHexUpperAux fuel n).length := by
  intro fuel
  induction fuel with
  | zero =>
    intro n h
    omega
  | succ fuel _ =>
    intro n _
    simp only [natToHexUpperAux]
    by_cases h16 : n < 16
    · simp [if_pos h16]
    · simp [if_neg h16, List.length_append]

theorem natToHexUpperAux_le : ∀ (k fuel n : Nat), n < fuel → n < 16 ^ k → 1 ≤ k →
    (natToHexUpperAux fuel n).length ≤ k := by
  intro k
  induction k with
  | zero =>
    intro fuel n _ _ h1
    omega
  | succ k ih =>
    intro fuel n hf hk _
    cases fuel with
    | zero => omega
    | succ fuel =>
      simp only [natToHexUpperAux]
      by_cases h16 : n < 16
      · simp [if_pos h16]
      · have hk1 : 1 ≤ k := by
          by_contra hk0
          push_neg at hk0
          have : k = 0 := by omega
          subst this
          simp at hk
          omega
        have hdiv : n / 16 < fuel := by
          have := Nat.div_lt_self (by omega : 0 < n) (by omega : 1 < 16)
          omega
        have hdivk : n / 16 < 16 ^ k := by
          rw [Nat.div_lt_iff_lt_mul (by omega : 0 < 16)]
          calc n < 16 ^ (k + 1) := hk
            _ = 16 ^ k * 16 := by ring
        have := ih fuel (n / 16) hdiv hdivk hk1
        simp [if_neg h16, List.length_append]
        omega

theorem hexValAux_append (xs : List Char) : ∀ (c : Char) (acc : Nat),
    hexValAux acc (xs ++ [c]) = 16 * hexValAux acc xs + hexDigitVal c := by
  induction xs with
  | nil =>
    intro c acc
    simp [hexValAux]
  | cons x rest ih =>
    intro c acc
    show hexValAux (16 * acc + hexDigitVal x) (rest ++ [c]) =
      16 * hexValAux (16 * acc + hexDigitVal x) rest + hexDigitVal c
    exact ih c (16 * acc + hexDigitVal x)

theorem natToHexUpperAux_val : ∀ (fuel n : Nat), n < fuel →
    hexVal (natToHexUpperAux fuel n) = n := by
  intro fuel
  induction fuel with
  | zero =>
    intro n h
    omega
  | succ fuel ih =>
    intro n h
    simp only [natToHexUpperAux]
    by_cases h16 : n < 16
    · simp only [if_pos h16, hexVal, hexValAux]
      have := (hexDigitChar_spec n h16).1
      omega
    · have hdiv : n / 16 < fuel := by
        have := Nat.div_lt_self (by omega : 0 < n) (by omega : 1 < 16)
        omega
      have hmod : n % 16 < 16 := Nat.mod_lt _ (by omega)
      rw [if_neg h16]
      simp only [hexVal] at *
      rw [hexValAux_append, ih (n / 16) hdiv, (hexDigitChar_spec _ hmod).1]
      omega

theorem hexValAux_zeros : ∀ (j : Nat) (cs : List Char),
    hexValAux 0 (List.replicate j '0' ++ cs) = hexValAux 0 cs := by
  intro j
  induction j with
  | zero =>
    intro cs
    simp
  | succ j ih =>
    intro cs
    rw [List.replicate_succ, List.cons_append]
    show hexValAux (16 * 0 + hexDigitVal '0') (List.replicate j '0' ++ cs) = hexValAux 0 cs
    rw [show 16 * 0 + hexDigitVal '0' = 0 from by decide]
    exact ih cs

theorem dropWhile_of_all_neg (cs : List Char)
    (h : cs.all (fun c => !isJsWhitespace c) = true) :
    cs.dropWhile isJsWhitespace = cs := by
  cases cs with
  | nil => rfl
  | cons c rest =>
    have hc : isJsWhitespace c = false := by
      simp [List.all_cons, Bool.not_eq_true'] at h
      exact h.1
    simp [List.dropWhile_cons, hc]

theorem trimChars_of_all_neg (cs : List Char)
    (h : cs.all (fun c => !isJsWhitespace c) = true) :
    trimChars cs = cs := by
  unfold trimChars
  rw [dropWhile_of_all_neg cs h]
  rw [dropWhile_of_all_neg cs.reverse (by simpa [List.all_reverse] using h)]
  exact List.reverse_reverse cs

end MtpUtils

namespace UsbMtpModule

/-- On a connected session, one send increments the counter by exactly one
(modulo 2^32) and hands the freshly built packet to the OUT transfer,
whatever the transfers return. -/
theorem sendMtpCommand_connected (s : ModuleState) (opcode : Nat) (params : List Nat)
    (o : UsbTransferOracle) (h : s.connected = true) :
    (sendMtpCommand s opcode params o).state =
      ⟨true, (s.transactionId + 1) % 4294967296⟩ ∧
    (sendMtpCommand s opcode params o).sentPacket =
      some (buildMtpCommandPacket opcode s.transactionId params) := by
  by_cases hw : o.writeResult < 0 <;> simp [sendMtpCommand, h, hw]

/-- Running a batch of sends on a connected session consumes the consecutive
transaction IDs starting at the current counter value, one per send, as long
as the counter does not reach the 32-bit wrap. -/
theorem runSends_connected (cmds : List (Nat × List Nat × UsbTransferOracle)) :
    ∀ s : ModuleState, s.connected = true →
      s.transactionId + cmds.length < 4294967296 →
      runSends s cmds =
        (List.range' s.transactionId cmds.length,
          ⟨true, s.transactionId + cmds.length⟩) := by
  induction cmds with
  | nil =>
    intro s h _
    obtain ⟨sc, st⟩ := s
    simp only at h
    subst h
    simp [runSends]
  | cons c rest ih =>
    intro s h hlt
    obtain ⟨sc, st⟩ := s
    simp only at h
    subst h
    have hstate := (sendMtpCommand_connected ⟨true, st⟩ c.1 c.2.1 c.2.2 rfl).1
    have hmod : (st + 1) % 4294967296 = st + 1 := by
      apply Nat.mod_eq_of_lt
      simp only [List.length_cons] at hlt
      omega
    simp only [runSends]
    rw [hstate, hmod, ih ⟨true, st + 1⟩ rfl (by
      show st + 1 + rest.length < 4294967296
      simp only [List.length_cons] at hlt
      omega)]
    simp only [List.length_cons, if_true]
    rw [List.range'_succ st rest.length 1]
    simp [show st + (rest.length + 1) = st + 1 + rest.length from by omega]

end UsbMtpModule

/-- C8: for every byte buffer of length strictly less than 12, regardless of
byte content, `parseMtpResponse` returns absent (`null`), not an error. -/
theorem c8_short_buffer_absent (data : List Nat) (h : data.length < 12) :
    MtpUtils.parseMtpResponse data = .ok none := by
  simp [MtpUtils.parseMtpResponse, h]

theorem c8_short_buffer_absent_witness :
    MtpUtils.parseMtpResponse [1, 2, 3] = .ok none :=
  c8_short_buffer_absent [1, 2, 3] (by decide)

/-- C1 counterexample: on this 12-byte buffer whose `totalLength` field
claims 16 bytes (one 32-bit parameter beyond the buffer), `parseMtpResponse`
does not truncate to the parameters the buffer can supply — it raises the
out-of-bounds read error, refuting the claim that it never reads past the end
of the buffer and truncates silently. -/
theorem c1_counterexample :
    ([16, 0, 0, 0, 3, 0, 1, 32, 1, 0, 0, 0] : List Nat).length = 12 ∧
    MtpUtils.parseMtpResponse [16, 0, 0, 0, 3, 0, 1, 32, 1, 0, 0, 0] = .error () := by
  exact ⟨rfl, rfl⟩

/-- C1 amended: for every buffer of length ≥ 12, `parseMtpResponse` reads as
many trailing 32-bit parameters as the `totalLength` field claims, NOT
bounded by the buffer length: when all claimed parameters fit it returns them
(the values at offsets 12, 16, …), and when the field claims more parameters
than the buffer holds the parse fails with the out-of-bounds read error
instead of truncating. -/
theorem c1_parse_unclamped (data : List Nat) (h12 : 12 ≤ data.length) :
    (12 + 4 * ((MtpUtils.getUint32v data 0 - 12) / 4) ≤ data.length →
      MtpUtils.parseMtpResponse data =
        .ok (some ⟨MtpUtils.getUint32v data 0, MtpUtils.getUint16v data 4,
          MtpUtils.getUint16v data 6, MtpUtils.getUint32v data 8,
          (List.range ((MtpUtils.getUint32v data 0 - 12) / 4)).map
            fun i => MtpUtils.getUint32v data (12 + 4 * i)⟩)) ∧
    (data.length < 12 + 4 * ((MtpUtils.getUint32v data 0 - 12) / 4) →
      MtpUtils.parseMtpResponse data = .error ()) := by
  constructor
  · intro hfit
    have hsome := MtpUtils.readParamsAux_some data ((MtpUtils.getUint32v data 0 - 12) / 4) 12
      (by omega)
    simp [MtpUtils.parseMtpResponse, Nat.not_lt.mpr h12, hsome]
  · intro hover
    have hk : 0 < (MtpUtils.getUint32v data 0 - 12) / 4 := by omega
    have hnone := MtpUtils.readParamsAux_none data ((MtpUtils.getUint32v data 0 - 12) / 4) 12
      hk (by omega)
    simp [MtpUtils.parseMtpResponse, Nat.not_lt.mpr h12, hnone]

/-- C3: for every opcode in [0, 0xFFFF], transaction id below 2^32 and
parameter list of length at most 5 (parameters below 2^32),
`buildMtpCommandPacket` produces exactly `12 + 4 * len(params)` bytes laid
out little-endian as [len:u32][type:u16 = 1][opcode:u16][txId:u32]
[params:u32...]; `buildMtpCommandPacket 0xFE01 1 []` is the exact 12-byte
example of the spec, and re-parsing the built bytes with the response-shaped
reader recovers every field bit for bit. -/
theorem c3_buildCommand_wire_format (opcode transactionId : Nat) (params : List Nat)
    (hop : opcode ≤ 65535) (htx : transactionId ≤ 4294967295)
    (hps : ∀ p ∈ params, p < 4294967296) (hk : params.length ≤ 5) :
    MtpUtils.buildMtpCommandPacket opcode transactionId params =
      MtpUtils.u32le (12 + 4 * params.length) ++ MtpUtils.u16le 1 ++
        MtpUtils.u16le opcode ++ MtpUtils.u32le transactionId ++
        MtpUtils.paramsBytes params ∧
    (MtpUtils.buildMtpCommandPacket opcode transactionId params).length =
      12 + 4 * params.length ∧
    MtpUtils.buildMtpCommandPacket 0xFE01 1 [] =
      [12, 0, 0, 0, 0x01, 0x00, 0x01, 0xFE, 0x01, 0x00, 0x00, 0x00] ∧
    MtpUtils.parseMtpResponse (MtpUtils.buildMtpCommandPacket opcode transactionId params) =
      .ok (some ⟨12 + 4 * params.length, 1, opcode, transactionId, params⟩) := by
  refine ⟨MtpUtils.buildMtpCommandPacket_eq opcode transactionId params, ?_, by rfl, ?_⟩
  · rw [MtpUtils.buildMtpCommandPacket_eq]
    simp [List.length_append, MtpUtils.u32le_length, MtpUtils.u16le_length,
      MtpUtils.paramsBytes_length]
    omega
  · rw [MtpUtils.buildMtpCommandPacket_eq]
    exact MtpUtils.parse_of_build opcode transactionId params (by omega) (by omega) hps hk

/-- Witness for `c3_buildCommand_wire_format` at opcode 0x1001, transaction
id 7 and one parameter. -/
theorem c3_buildCommand_wire_format_witness :
    MtpUtils.parseMtpResponse (MtpUtils.buildMtpCommandPacket 4097 7 [5]) =
      .ok (some ⟨12 + 4 * [5].length, 1, 4097, 7, [5]⟩) :=
  (c3_buildCommand_wire_format 4097 7 [5] (by decide) (by decide)
    (by decide) (by decide)).2.2.2

/-- C4 counterexample: the string made of a space followed by 0x12 consists,
after stripping leading whitespace, of a 0x prefix and two hex digits — the
claim accepts it with value 18 — but `parseHexOpcode` rejects it, because
the source removes the prefix from the raw string before trimming, so the
prefix survives into the digit check and fails it. -/
theorem c4_counterexample :
    claimedParseHexOpcode [' ', '0', 'x', '1', '2'] = some 18 ∧
    MtpUtils.parseHexOpcode [' ', '0', 'x', '1', '2'] = none := by
  exact ⟨rfl, rfl⟩

/-- C4 amended: `parseHexOpcode` removes a single 0x/0X prefix from the very
start of the raw string and only then strips whitespace; it accepts exactly
the inputs whose remainder trims to 1 to 4 hex digits (so whitespace before
the prefix is rejected and whitespace between prefix and digits is
accepted), and every accepted value is at most 0xFFFF. -/
theorem c4_parseHexOpcode_amended (cs : List Char) :
    MtpUtils.parseHexOpcode cs = amendedParseHexOpcode cs ∧
    ∀ v, MtpUtils.parseHexOpcode cs = some v → v ≤ 65535 := by
  constructor
  · simp only [MtpUtils.parseHexOpcode, amendedParseHexOpcode]
    by_cases h1 : (MtpUtils.trimChars (MtpUtils.strip0x cs)).length = 0
    · simp [h1]
    · by_cases h4 : 4 < (MtpUtils.trimChars (MtpUtils.strip0x cs)).length
      · simp [h1, h4, Nat.not_le.mpr h4]
      · by_cases hall : (MtpUtils.trimChars (MtpUtils.strip0x cs)).all MtpUtils.isHexDigit
        · have hb : (MtpUtils.trimChars (MtpUtils.strip0x cs)).length ≤ 4 := by omega
          have hbound := MtpUtils.hexVal_le (MtpUtils.trimChars (MtpUtils.strip0x cs)) hb
          simp [h1, h4, hall, hb, Nat.not_lt.mpr hbound, Nat.one_le_iff_ne_zero]
        · simp [h1, h4, hall]
  · intro v hv
    simp only [MtpUtils.parseHexOpcode] at hv
    split at hv
    · split at hv
      · simp at hv
      · rename_i hlt
        cases hv
        omega
    · simp at hv

/-- Witness for `c4_parseHexOpcode_amended` at the input FE01. -/
theorem c4_parseHexOpcode_amended_witness :
    MtpUtils.parseHexOpcode ['F', 'E', '0', '1'] =
      amendedParseHexOpcode ['F', 'E', '0', '1'] ∧ (65025 : Nat) ≤ 65535 :=
  ⟨(c4_parseHexOpcode_amended ['F', 'E', '0', '1']).1,
    (c4_parseHexOpcode_amended ['F', 'E', '0', '1']).2 65025 (by rfl)⟩

/-- C7: for every `n` in [0, 0xFFFF], `parseHexOpcode (formatOpcode n) = n`;
`formatOpcode` always produces a 0x-prefixed zero-padded 4-digit uppercase
hex string, with `formatOpcode 0 = "0x0000"` and
`formatOpcode 0xFE01 = "0xFE01"`. -/
theorem c7_formatOpcode_roundtrip (n : Nat) (h : n ≤ 65535) :
    MtpUtils.parseHexOpcode (MtpUtils.formatOpcode n) = some n ∧
    MtpUtils.formatOpcode 0 = ['0', 'x', '0', '0', '0', '0'] ∧
    MtpUtils.formatOpcode 65025 = ['0', 'x', 'F', 'E', '0', '1'] := by
  refine ⟨?_, by rfl, by rfl⟩
  have hgood := MtpUtils.natToHexUpperAux_good (n + 1) n (by omega)
  have hpos := MtpUtils.natToHexUpperAux_pos (n + 1) n (by omega)
  have hle := MtpUtils.natToHexUpperAux_le 4 (n + 1) n (by omega)
    (by norm_num; omega) (by omega)
  have hval := MtpUtils.natToHexUpperAux_val (n + 1) n (by omega)
  rw [List.all_eq_true] at hgood
  have hhex : (MtpUtils.natToHexUpperAux (n + 1) n).all MtpUtils.isHexDigit = true := by
    rw [List.all_eq_true]
    intro c hc
    have := hgood c hc
    rw [Bool.and_eq_true] at this
    exact this.1
  have hnws : (MtpUtils.natToHexUpperAux (n + 1) n).all
      (fun c => !MtpUtils.isJsWhitespace c) = true := by
    rw [List.all_eq_true]
    intro c hc
    have := hgood c hc
    rw [Bool.and_eq_true] at this
    exact this.2
  have hstrip : MtpUtils.strip0x (MtpUtils.formatOpcode n) =
      MtpUtils.padStart (MtpUtils.natToHexUpper n) 4 '0' := rfl
  have hbody_nws : (MtpUtils.padStart (MtpUtils.natToHexUpper n) 4 '0').all
      (fun c => !MtpUtils.isJsWhitespace c) = true := by
    simp only [MtpUtils.padStart, List.all_append]
    rw [Bool.and_eq_true]
    constructor
    · rw [List.all_eq_true]
      intro c hc
      have := List.eq_of_mem_replicate hc
      subst this
      decide
    · exact hnws
  have htrim : MtpUtils.trimChars (MtpUtils.padStart (MtpUtils.natToHexUpper n) 4 '0') =
      MtpUtils.padStart (MtpUtils.natToHexUpper n) 4 '0' :=
    MtpUtils.trimChars_of_all_neg _ hbody_nws
  have hblen : (MtpUtils.padStart (MtpUtils.natToHexUpper n) 4 '0').length = 4 := by
    simp only [MtpUtils.padStart, List.length_append, List.length_replicate,
      MtpUtils.natToHexUpper]
    omega
  have hbhex : (MtpUtils.padStart (MtpUtils.natToHexUpper n) 4 '0').all
      MtpUtils.isHexDigit = true := by
    simp only [MtpUtils.padStart, List.all_append]
    rw [Bool.and_eq_true]
    constructor
    · rw [List.all_eq_true]
      intro c hc
      have := List.eq_of_mem_replicate hc
      subst this
      decide
    · exact hhex
  have hbval : MtpUtils.hexVal (MtpUtils.padStart (MtpUtils.natToHexUpper n) 4 '0') = n := by
    simp only [MtpUtils.padStart, MtpUtils.hexVal, MtpUtils.natToHexUpper]
    rw [MtpUtils.hexValAux_zeros]
    exact hval
  simp only [MtpUtils.parseHexOpcode]
  rw [hstrip, htrim]
  simp [hblen, hbhex, hbval, Nat.not_lt.mpr h]

/-- Witness for `c7_formatOpcode_roundtrip` at 0xFE01. -/
theorem c7_formatOpcode_roundtrip_witness :
    MtpUtils.parseHexOpcode (MtpUtils.formatOpcode 65025) = some 65025 :=
  (c7_formatOpcode_roundtrip 65025 (by decide)).1

/-- Witness for `c1_parse_unclamped` at a concrete 16-byte buffer whose
`totalLength` field claims exactly one parameter. -/
theorem c1_parse_unclamped_witness :
    MtpUtils.parseMtpResponse [16, 0, 0, 0, 3, 0, 1, 32, 1, 0, 0, 0, 170, 0, 0, 0] =
      .ok (some ⟨16, 3, 8193, 1, [170]⟩) := by
  have h := (c1_parse_unclamped [16, 0, 0, 0, 3, 0, 1, 32, 1, 0, 0, 0, 170, 0, 0, 0]
    (by decide)).1 (by decide)
  rw [h]
  rfl

/-- C2: for every send on a session with a bound transport, the outcome's
success flag (the boolean the hook's `sendCommand` produces for the
exchange) is true if and only if the bulk write succeeded
(`bytesSent > 0`) and either no parsed response was observed or the parsed
response code is the generic OK code 0x2001. -/
theorem c2_success_policy (s : UsbMtpModule.ModuleState) (opcode : Nat)
    (params : List Nat) (o : UsbMtpModule.UsbTransferOracle)
    (hc : s.connected = true) :
    UsbMtpModule.endToEndSuccess s opcode params o = true ↔
      0 < o.writeResult ∧
        (UsbMtpModule.observedResponseCode o = none ∨
          UsbMtpModule.observedResponseCode o = some 8193) := by
  obtain ⟨w, rb⟩ := o
  by_cases hw : w < 0
  · have hout : UsbMtpModule.endToEndSuccess s opcode params ⟨w, rb⟩ = false := by
      simp [UsbMtpModule.endToEndSuccess, UsbMtpModule.sendMtpCommand, hc, hw]
    rw [hout]
    constructor
    · intro habs
      exact Bool.noConfusion habs
    · rintro ⟨h1, _⟩
      have h1w : 0 < w := h1
      omega
  · cases rb with
    | none =>
      simp [UsbMtpModule.endToEndSuccess, UsbMtpModule.sendMtpCommand, hc, hw,
        UsbMtpModule.hookIsSuccess, UsbMtpModule.observedResponseCode]
    | some bs =>
      by_cases hlen : 12 ≤ bs.length
      · have hobs : UsbMtpModule.observedResponseCode ⟨w, some bs⟩ =
            some (MtpUtils.getUint16v bs 6) := by
          simp [UsbMtpModule.observedResponseCode, hlen]
        have hout : UsbMtpModule.endToEndSuccess s opcode params ⟨w, some bs⟩ =
            (decide (0 < w) &&
              (Int.ofNat (MtpUtils.getUint16v bs 6) == -1 ||
                Int.ofNat (MtpUtils.getUint16v bs 6) == 8193)) := by
          simp [UsbMtpModule.endToEndSuccess, UsbMtpModule.sendMtpCommand, hc, hw,
            UsbMtpModule.hookIsSuccess, hlen]
        rw [hout, hobs]
        simp only [Bool.and_eq_true, Bool.or_eq_true, beq_iff_eq, decide_eq_true_eq]
        constructor
        · rintro ⟨h1, h2 | h2⟩
          · exfalso
            simp only [Int.ofNat_eq_coe] at h2
            omega
          · refine ⟨h1, Or.inr ?_⟩
            congr 1
            simp only [Int.ofNat_eq_coe] at h2
            exact_mod_cast h2
        · rintro ⟨h1, h2 | h2⟩
          · exact Option.noConfusion h2
          · simp only [Option.some.injEq] at h2
            refine ⟨h1, Or.inr ?_⟩
            simp only [Int.ofNat_eq_coe]
            exact_mod_cast h2
      · simp [UsbMtpModule.endToEndSuccess, UsbMtpModule.sendMtpCommand, hc, hw,
          UsbMtpModule.hookIsSuccess, UsbMtpModule.observedResponseCode, hlen]

/-- Witness for `c2_success_policy`: a successful 12-byte write answered by
an OK (0x2001) response container counts as success. -/
theorem c2_success_policy_witness :
    UsbMtpModule.endToEndSuccess ⟨true, 1⟩ 65025 []
      ⟨12, some [12, 0, 0, 0, 3, 0, 1, 32, 1, 0, 0, 0]⟩ = true :=
  (c2_success_policy ⟨true, 1⟩ 65025 []
    ⟨12, some [12, 0, 0, 0, 3, 0, 1, 32, 1, 0, 0, 0]⟩ rfl).mpr
    ⟨by decide, Or.inr (by decide)⟩

/-- C5: a send on a session with no transport bound (also right after
close) fails with the NOT_CONNECTED outcome, transmits nothing, and leaves
the transaction counter (indeed the whole state) unchanged. -/
theorem c5_send_not_connected (s : UsbMtpModule.ModuleState) (opcode : Nat)
    (params : List Nat) (o : UsbMtpModule.UsbTransferOracle) :
    (s.connected = false →
      UsbMtpModule.sendMtpCommand s opcode params o = ⟨.notConnected, s, none⟩) ∧
    UsbMtpModule.sendMtpCommand (UsbMtpModule.closeConnection s) opcode params o =
      ⟨.notConnected, UsbMtpModule.closeConnection s, none⟩ ∧
    (UsbMtpModule.closeConnection s).transactionId = s.transactionId := by
  refine ⟨?_, ?_, rfl⟩
  · intro h
    simp [UsbMtpModule.sendMtpCommand, h]
  · simp [UsbMtpModule.sendMtpCommand, UsbMtpModule.closeConnection]

/-- Witness for `c5_send_not_connected` on an idle session with counter 42. -/
theorem c5_send_not_connected_witness :
    UsbMtpModule.sendMtpCommand ⟨false, 42⟩ 65025 [] ⟨5, none⟩ =
      ⟨.notConnected, ⟨false, 42⟩, none⟩ :=
  (c5_send_not_connected ⟨false, 42⟩ 65025 [] ⟨5, none⟩).1 rfl

/-- C6: opening a transport resets the per-session counter to 1 and marks
the session connected; each send on a connected session increments the
counter exactly once whatever the transfers return (so not per response
received); and the IDs a session assigns over any batch of sends are the
consecutive values 1, 2, …, hence strictly increasing and never reused
within the session's lifetime (below the out-of-scope 32-bit wrap). -/
theorem c6_transaction_counter (s0 : UsbMtpModule.ModuleState)
    (cmds : List (Nat × List Nat × UsbMtpModule.UsbTransferOracle))
    (h : cmds.length + 1 < 4294967296) :
    (UsbMtpModule.openConnection true s0).transactionId = 1 ∧
    (UsbMtpModule.openConnection true s0).connected = true ∧
    (∀ (s : UsbMtpModule.ModuleState) (op : Nat) (ps : List Nat)
        (o : UsbMtpModule.UsbTransferOracle), s.connected = true →
      (UsbMtpModule.sendMtpCommand s op ps o).state.transactionId =
        (s.transactionId + 1) % 4294967296) ∧
    (UsbMtpModule.runSends (UsbMtpModule.openConnection true s0) cmds).1 =
      List.range' 1 cmds.length ∧
    (UsbMtpModule.runSends (UsbMtpModule.openConnection true s0) cmds).1.Pairwise (· < ·) ∧
    (UsbMtpModule.runSends (UsbMtpModule.openConnection true s0) cmds).2.transactionId =
      1 + cmds.length := by
  have hopen : UsbMtpModule.openConnection true s0 = ⟨true, 1⟩ := rfl
  rw [hopen]
  have hrun := UsbMtpModule.runSends_connected cmds ⟨true, 1⟩ rfl (by
    show 1 + cmds.length < 4294967296
    omega)
  refine ⟨rfl, rfl, ?_, ?_, ?_, ?_⟩
  · intro s op ps o hcon
    rw [(UsbMtpModule.sendMtpCommand_connected s op ps o hcon).1]
  · rw [hrun]
  · rw [hrun]
    exact List.pairwise_lt_range' 1 cmds.length 1 (by omega)
  · rw [hrun]

/-- Witness for `c6_transaction_counter`: two sends (the second of which
fails its bulk write) consume IDs 1 and 2 and leave the counter at 3. -/
theorem c6_transaction_counter_witness :
    (UsbMtpModule.runSends (UsbMtpModule.openConnection true ⟨false, 5⟩)
      [(65025, [], ⟨3, none⟩), (4097, [7], ⟨-1, some []⟩)]).1 = [1, 2] := by
  have h := (c6_transaction_counter ⟨false, 5⟩
    [(65025, [], ⟨3, none⟩), (4097, [7], ⟨-1, some []⟩)] (by decide)).2.2.2.1
  rw [h]
  rfl

/-- C9: opcode classification is advisory only and never gates
transmission: whatever category `getOpcodeCategory` assigns to an opcode
(including `unknown` for opcodes outside every curated preset), a send on a
connected session builds the packet for that opcode and hands it to the
bulk OUT transfer, and is never rejected based on the opcode's value. -/
theorem c9_classification_never_gates (s : UsbMtpModule.ModuleState) (opcode : Nat)
    (params : List Nat) (o : UsbMtpModule.UsbTransferOracle)
    (cat : MtpUtils.OpcodeCategory) (_hcat : MtpUtils.getOpcodeCategory opcode = cat)
    (hc : s.connected = true) :
    (UsbMtpModule.sendMtpCommand s opcode params o).sentPacket =
      some (UsbMtpModule.buildMtpCommandPacket opcode s.transactionId params) ∧
    (UsbMtpModule.sendMtpCommand s opcode params o).outcome ≠ .notConnected := by
  by_cases hw : o.writeResult < 0 <;> simp [UsbMtpModule.sendMtpCommand, hc, hw]

/-- Witness for `c9_classification_never_gates` at opcode 0x1234, which is
outside every curated preset and classified `unknown`, yet transmitted. -/
theorem c9_classification_never_gates_witness :
    (UsbMtpModule.sendMtpCommand ⟨true, 1⟩ 4660 [] ⟨1, none⟩).sentPacket =
      some (UsbMtpModule.buildMtpCommandPacket 4660 1 []) :=
  (c9_classification_never_gates ⟨true, 1⟩ 4660 [] ⟨1, none⟩
    MtpUtils.OpcodeCategory.unknown (by decide) rfl).1

/-- C10: when the bulk write fails (negative transfer result) on a
connected session, the call ends in the TRANSFER_FAILED outcome but the
transaction counter has nonetheless already been incremented by exactly
one — a failed transfer still consumes a transaction ID. -/
theorem c10_failed_transfer_consumes_id (s : UsbMtpModule.ModuleState) (opcode : Nat)
    (params : List Nat) (o : UsbMtpModule.UsbTransferOracle)
    (hc : s.connected = true) (hw : o.writeResult < 0) :
    (UsbMtpModule.sendMtpCommand s opcode params o).outcome =
      .transferFailed o.writeResult ∧
    (UsbMtpModule.sendMtpCommand s opcode params o).state.transactionId =
      (s.transactionId + 1) % 4294967296 := by
  simp [UsbMtpModule.sendMtpCommand, hc, hw]

/-- Witness for `c10_failed_transfer_consumes_id`: a failed write on a
fresh session consumes ID 1 and leaves the counter at 2. -/
theorem c10_failed_transfer_consumes_id_witness :
    (UsbMtpModule.sendMtpCommand ⟨true, 1⟩ 65025 [] ⟨-1, none⟩).outcome =
      .transferFailed (-1) ∧
    (UsbMtpModule.sendMtpCommand ⟨true, 1⟩ 65025 [] ⟨-1, none⟩).state.transactionId = 2 := by
  have h := c10_failed_transfer_consumes_id ⟨true, 1⟩ 65025 [] ⟨-1, none⟩ rfl (by decide)
  exact ⟨h.1, by rw [h.2]; rfl⟩
